import Mathlib

/-!
Verification of the pathfinding core (`src/pathfinding/src/include/core.h`)
of the lux3-bot repository, as a shallow embedding in Lean 4.

Conventions of the embedding:
* C++ `double` values that the core only compares, copies and adds are
  modelled as `Rat`.
* A C++ exception is modelled by the inductive `CppException`, with one
  constructor per standard exception type the core can raise:
  `std::invalid_argument` (thrown explicitly by the setters) and
  `std::out_of_range` (thrown by the bounds-checked `std::vector::at`).
* A const query that can throw returns `Except CppException α`.
* A mutating member function that can throw returns
  `Option CppException × State`: the state component is the state of the
  object after the call, which C++ throw semantics leave unchanged when
  the exception is raised before any assignment.
* Member functions whose bodies live in `.cpp` files that are not part of
  the sources (only `core.h` is) are modelled from the specification; each
  such definition carries a doc comment starting with `Modelled from the
  spec:`.
-/

/-- The standard C++ exception types raised by the core:
`std::invalid_argument` (explicit throws in the setters) and
`std::out_of_range` (raised by `std::vector::at` on a bad index). -/
inductive CppException where
  | invalidArgument
  | outOfRange
deriving DecidableEq

/-- State of the `AbsGraph` base class: the pause-action cost
`pause_action_cost_` (initialised to 1) and the `edge_collision_` flag
(initialised to `false`).  `core.h` lines 56-70. -/
structure AbsGraphState where
  pause_action_cost_ : Rat := 1
  edge_collision_ : Bool := false
deriving DecidableEq

/-- `AbsGraph::set_pause_action_cost` (`core.h` lines 73-77): throws
`std::invalid_argument` when the cost is negative, otherwise stores it. -/
def AbsGraphState.set_pause_action_cost (g : AbsGraphState) (cost : Rat) :
    Option CppException × AbsGraphState :=
  if cost < 0 then (some .invalidArgument, g)
  else (none, { g with pause_action_cost_ := cost })

/-- `AbsGraph::get_pause_action_cost()` (`core.h` lines 79-81). -/
def AbsGraphState.get_pause_action_cost (g : AbsGraphState) : Rat :=
  g.pause_action_cost_

/-- `AbsGraph::set_edge_collision` (`core.h` lines 87-89). -/
def AbsGraphState.set_edge_collision (g : AbsGraphState) (b : Bool) :
    AbsGraphState :=
  { g with edge_collision_ := b }

/-- `AbsGraph::edge_collision` (`core.h` lines 91-93). -/
def AbsGraphState.edge_collision (g : AbsGraphState) : Bool :=
  g.edge_collision_

/-- State of the `AbsGrid` class (`core.h` lines 97-174): the inherited
`AbsGraph` fields, the per-cell weight vector `weights_` and the
`pause_action_cost_type_` selector (initialised to 0). -/
structure AbsGrid extends AbsGraphState where
  weights_ : List Rat := []
  pause_action_cost_type_ : Int := 0
deriving DecidableEq

/-- `AbsGrid::size` (`core.h` lines 100-102): the length of `weights_`. -/
def AbsGrid.size (g : AbsGrid) : Nat :=
  g.weights_.length

/-- `AbsGrid::has_coordinates` (`core.h` lines 104-106): always `true`. -/
def AbsGrid.has_coordinates (_ : AbsGrid) : Bool :=
  true

/-- `AbsGrid::is_directed_graph` (`core.h` lines 108-110): always `false`. -/
def AbsGrid.is_directed_graph (_ : AbsGrid) : Bool :=
  false

/-- `AbsGrid::get_weight` (`core.h` lines 112-114): `weights_.at(node)`,
which raises `std::out_of_range` whenever `node` is outside `0..size()-1`
(a negative `int` converts to a huge `size_t`, hence is also out of range). -/
def AbsGrid.get_weight (g : AbsGrid) (node : Int) : Except CppException Rat :=
  if h : 0 ≤ node ∧ node.toNat < g.weights_.length then
    .ok (g.weights_.get ⟨node.toNat, h.2⟩)
  else
    .error .outOfRange

/-- `AbsGrid::get_weights` (`core.h` lines 116-118). -/
def AbsGrid.get_weights (g : AbsGrid) : List Rat :=
  g.weights_

/-- `AbsGrid::has_obstacle` (`core.h` lines 120-122):
`get_weight(node) == -1`, propagating the exception of `get_weight`. -/
def AbsGrid.has_obstacle (g : AbsGrid) (node : Int) : Except CppException Bool :=
  (g.get_weight node).map (fun w => w == -1)

/-- Modelled from the spec: the body of `AbsGrid::update_weight` lives in
`core.cpp`, which is not among the sources; only the declaration (`core.h`
line 136) is.  Per the spec, `update_weight(node, w)` validates `w ≥ 0` or
`w == -1` (raising a domain error otherwise), out-of-range vertex ids
trigger a domain error of the out-of-range kind (the store goes through the
bounds-checked vector element access), and on success the weight is stored. -/
def AbsGrid.update_weight (g : AbsGrid) (node : Int) (w : Rat) :
    Option CppException × AbsGrid :=
  if w < 0 ∧ w ≠ -1 then (some .invalidArgument, g)
  else if 0 ≤ node ∧ node.toNat < g.weights_.length then
    (none, { g with weights_ := g.weights_.set node.toNat w })
  else (some .outOfRange, g)

/-- Modelled from the spec: the body of `AbsGrid::set_weights` lives in
`core.cpp`, which is not among the sources; only the declaration (`core.h`
line 137) is.  Per the spec, `set_weights(vec)` validates that the length
of `vec` equals `size()` (raising a domain error otherwise) and replaces
the weight vector on success. -/
def AbsGrid.set_weights (g : AbsGrid) (weights : List Rat) :
    Option CppException × AbsGrid :=
  if weights.length = g.weights_.length then
    (none, { g with weights_ := weights })
  else (some .invalidArgument, g)

/-- `AbsGrid::add_obstacle` (`core.h` lines 124-126):
`update_weight(node, -1)`. -/
def AbsGrid.add_obstacle (g : AbsGrid) (node : Int) :
    Option CppException × AbsGrid :=
  g.update_weight node (-1)

/-- `AbsGrid::remove_obstacle` (`core.h` lines 128-130):
`update_weight(node, 1)`. -/
def AbsGrid.remove_obstacle (g : AbsGrid) (node : Int) :
    Option CppException × AbsGrid :=
  g.update_weight node 1

/-- `AbsGrid::clear_weights` (`core.h` lines 132-134): fills `weights_`
with the constant 1. -/
def AbsGrid.clear_weights (g : AbsGrid) : AbsGrid :=
  { g with weights_ := g.weights_.map (fun _ => 1) }

/-- `AbsGrid::get_pause_action_cost_type` (`core.h` lines 140-142). -/
def AbsGrid.get_pause_action_cost_type (g : AbsGrid) : Int :=
  g.pause_action_cost_type_

/-- `AbsGrid::set_pause_action_cost_type` (`core.h` lines 144-149): throws
`std::invalid_argument` when `type < 0` or `type > 1`, otherwise stores. -/
def AbsGrid.set_pause_action_cost_type (g : AbsGrid) (type : Int) :
    Option CppException × AbsGrid :=
  if type < 0 ∨ type > 1 then (some .invalidArgument, g)
  else (none, { g with pause_action_cost_type_ := type })

/-- `AbsGrid::get_pause_action_cost()` (`core.h` lines 151-153). -/
def AbsGrid.get_pause_action_cost (g : AbsGrid) : Rat :=
  g.pause_action_cost_

/-- `AbsGrid::get_pause_action_cost(int v)` (`core.h` lines 155-164): for
type 0 the fixed `pause_action_cost_`; for type 1 the weight `weights_[v]`
of the cell, clamped to 0 when negative.  The source reads `weights_[v]`
through the unchecked `operator[]`, whose behaviour is undefined out of
range; the embedding uses a default of 0 there, and every claim about this
function restricts `v` to the range `0..size()-1`. -/
def AbsGrid.get_pause_action_cost_at (g : AbsGrid) (v : Int) : Rat :=
  if g.pause_action_cost_type_ = 0 then g.pause_action_cost_
  else
    let w := g.weights_.getD v.toNat 0
    if w < 0 then 0 else w

/-- State of the concrete 2D `Grid` class: the inherited `AbsGrid` fields
plus the grid dimensions, the two border wrap flags and the diagonal
movement policy with its cost multiplier (declared in the bindings for
`src/include/grid.h`). -/
structure Grid extends AbsGrid where
  width : Nat := 0
  height : Nat := 0
  passable_left_right_border : Bool := false
  passable_up_down_border : Bool := false
  diagonal_movement : Nat := 0
  diagonal_movement_cost_multiplier : Rat := 1
deriving DecidableEq

/-- Shift one grid coordinate `c` by `d` along an axis of extent `extent`:
results inside `0..extent-1` stand; when the respective border wrap flag is
set, coordinates wrap modulo the extent; otherwise the move is rejected. -/
def shiftCoord (extent : Nat) (wrap : Bool) (c : Nat) (d : Int) : Option Nat :=
  let nc : Int := (c : Int) + d
  if 0 ≤ nc ∧ nc < (extent : Int) then some nc.toNat
  else if wrap ∧ 0 < extent then some (nc % (extent : Int)).toNat
  else none

/-- The cell reached from `(x, y)` by the offset `(dx, dy)` under the
grid's wrap flags, as a row-major vertex id `y * width + x`, or `none` when
the move leaves the grid. -/
def Grid.targetCell (g : Grid) (x y : Nat) (dx dy : Int) : Option Nat :=
  match shiftCoord g.width g.passable_left_right_border x dx,
        shiftCoord g.height g.passable_up_down_border y dy with
  | some nx, some ny => some (ny * g.width + nx)
  | _, _ => none

/-- A cell is passable when its stored weight is not the obstacle
sentinel `-1`. -/
def Grid.passableCell (g : Grid) (c : Nat) : Bool :=
  !(g.weights_.getD c (-1) == -1)

/-- The stored weight of cell `c` (the cost of entering it). -/
def Grid.weightAt (g : Grid) (c : Nat) : Rat :=
  g.weights_.getD c 0

/-- The four orthogonal neighbor offsets. -/
def orthoOffsets : List (Int × Int) :=
  [(0, -1), (-1, 0), (1, 0), (0, 1)]

/-- The four diagonal neighbor offsets. -/
def diagOffsets : List (Int × Int) :=
  [(-1, -1), (1, -1), (-1, 1), (1, 1)]

/-- Whether the diagonal step `(dx, dy)` from `(x, y)` is permitted by the
grid's diagonal movement policy: `0` never; `1` only when both adjacent
orthogonal cells are passable; `2` when at most one of them is an obstacle;
`3` always.  A missing adjacent cell counts as an obstacle. -/
def Grid.diagAllowed (g : Grid) (x y : Nat) (dx dy : Int) : Bool :=
  let obst : Option Nat → Bool := fun c =>
    match c with
    | none => true
    | some c => !(g.passableCell c)
  let o1 := obst (g.targetCell x y dx 0)
  let o2 := obst (g.targetCell x y 0 dy)
  match g.diagonal_movement with
  | 0 => false
  | 1 => !o1 && !o2
  | 2 => !(o1 && o2)
  | _ => true

/-- Modelled from the spec: the body of `Grid::get_neighbors` lives in
`grid.cpp`, which is not among the sources; only the declarations
(`core.h` line 28 and the `grid.h` binding) are.  Per the spec, neighbor
enumeration produces the orthogonal neighbors first and then the
diagonals, skips impassable targets, applies the wrap rules, and charges a
neighbor the entry cost of the target cell, multiplied by
`diagonal_movement_cost_multiplier` for diagonal moves; and for undirected
graphs the `reversed = true` enumeration equals the forward one, so the
flag does not affect the result. -/
def Grid.get_neighbors (g : Grid) (v : Nat) (_reversed : Bool := false) :
    List (Nat × Rat) :=
  let x := v % g.width
  let y := v / g.width
  let ortho := orthoOffsets.filterMap (fun d =>
    (g.targetCell x y d.1 d.2).bind (fun c =>
      if g.passableCell c then some (c, g.weightAt c) else none))
  let diag := diagOffsets.filterMap (fun d =>
    if g.diagAllowed x y d.1 d.2 then
      (g.targetCell x y d.1 d.2).bind (fun c =>
        if g.passableCell c then
          some (c, g.weightAt c * g.diagonal_movement_cost_multiplier)
        else none)
    else none)
  ortho ++ diag

/-- An abstract weighted graph as the search engines see it through the
`AbsGraph` interface (`core.h` lines 23-35): a vertex count `n` with dense
ids `0..n-1`, a neighbor enumeration and a heuristic `estimate_distance`. -/
structure SearchGraph where
  n : Nat
  neighbors : Nat → List (Nat × Rat)
  estimate : Nat → Nat → Rat := fun _ _ => 0

/-- A graph is well formed when every neighbor of an in-range vertex is
again in range (the spec's dense-id data model). -/
def SearchGraph.WellFormed (G : SearchGraph) : Prop :=
  ∀ v, v < G.n → ∀ p ∈ G.neighbors v, p.1 < G.n

/-- There is an edge from `u` to `v` when `v` occurs in `get_neighbors(u)`. -/
def SearchGraph.Edge (G : SearchGraph) (u v : Nat) : Prop :=
  v ∈ (G.neighbors u).map Prod.fst

/-- A path from `s` to `t` exists: the reflexive-transitive closure of the
edge relation. -/
def SearchGraph.Reachable (G : SearchGraph) (s t : Nat) : Prop :=
  Relation.ReflTransGen G.Edge s t

/-- Remove the element at index `i` from a list, returning it together
with the remaining elements. -/
def pickAt : List α → Nat → Option (α × List α)
  | [], _ => none
  | a :: as, 0 => some (a, as)
  | a :: as, i + 1 => (pickAt as i).map (fun p => (p.1, a :: p.2))

/-- `pickAt` on a nonempty list with the index clamped into range: total,
always returning the chosen element and the rest of the list. -/
def pickClamped (e : α) (es : List α) (i : Nat) : α × List α :=
  match pickAt (e :: es) (min i es.length) with
  | some r => r
  | none => (e, es)

/-- Index of a minimal element of `l` under the key `f` (0 on ties and on
the empty list). -/
def argminIdx (f : α → Rat) (l : List α) : Nat :=
  ((l.foldl (fun (acc : Nat × Option (Rat × Nat)) a =>
    match acc with
    | (idx, none) => (idx + 1, some (f a, idx))
    | (idx, some (bv, bi)) =>
        if f a < bv then (idx + 1, some (f a, idx))
        else (idx + 1, some (bv, bi))) (0, none)).2).elim 0 Prod.snd

/-- First recorded predecessor of `v` in a predecessor list of
`(child, parent)` pairs. -/
def lookupPred (pred : List (Nat × Nat)) (v : Nat) : Option Nat :=
  (pred.find? (fun p => p.1 == v)).map Prod.snd

/-- Reconstruct the path from `start` to `v` by following recorded
predecessors (with fuel to bound the walk). -/
def buildPath (pred : List (Nat × Nat)) (start : Nat) : Nat → Nat → Option (List Nat)
  | 0, _ => none
  | fuel + 1, v =>
    if v = start then some [start]
    else
      match lookupPred pred v with
      | none => none
      | some u => (buildPath pred start fuel u).map (fun p => p ++ [v])

/-- Record `v` as the predecessor of each vertex of `us` that is not the
start vertex and has no predecessor yet. -/
def addPreds (start v : Nat) (pred : List (Nat × Nat)) (us : List Nat) :
    List (Nat × Nat) :=
  us.foldl (fun pr u =>
    if u = start ∨ (lookupPred pr u).isSome then pr else (u, v) :: pr) pred

/-- Well-formedness of a predecessor list: children are distinct, never
the start vertex, and each parent is the start vertex or a child recorded
earlier, so predecessor chains always lead back to the start. -/
def WFPred (start : Nat) : List (Nat × Nat) → Prop
  | [] => True
  | (c, p) :: rest =>
      c ≠ start ∧ lookupPred rest c = none ∧
      (p = start ∨ (lookupPred rest p).isSome) ∧ WFPred start rest

/-- State of the generic best-first search loop: the open list of
`(vertex, tentative cost)` entries, the closed (settled) vertices, and the
recorded predecessors. -/
structure SearchState where
  frontier : List (Nat × Rat)
  settled : List Nat
  pred : List (Nat × Nat)

/-- Successor state when the popped vertex `v` (tentative cost `gv`) is
expanded: push every neighbor onto the open list (decrease-key by lazy
deletion: stale copies are skipped when popped), close `v`, and record
predecessors for the newly discovered vertices. -/
def settleState (G : SearchGraph) (start : Nat) (st : SearchState) (v : Nat)
    (gv : Rat) (rest : List (Nat × Rat)) : SearchState :=
  { frontier := rest ++ (G.neighbors v).map (fun p => (p.1, gv + p.2)),
    settled := v :: st.settled,
    pred := addPreds start v st.pred ((G.neighbors v).map Prod.fst) }

/-- Modelled from the spec: the bodies of `BFS::find_path`,
`Dijkstra::find_path` and `AStar::find_path` live in `bfs.cpp`,
`dijkstra.cpp` and `a_star.cpp`, which are not among the sources; only the
declarations (`core.h` lines 177-182 and the bindings) are.  The three
engines share this loop and differ only in which open entry `sel` pops
next: pop an entry; if its vertex is already closed, drop it (lazy
deletion); if it is the goal, succeed with the recorded predecessors;
otherwise expand it (a predecessor is recorded when a vertex is first
discovered).  The search fails when the open list is exhausted. -/
def searchLoop (G : SearchGraph) (sel : List (Nat × Rat) → Nat)
    (start goal : Nat) : Nat → SearchState → Option (List (Nat × Nat))
  | 0, _ => none
  | fuel + 1, st =>
    match st.frontier with
    | [] => none
    | e :: es =>
      let pk := pickClamped e es (sel (e :: es))
      let v := pk.1.1
      let gv := pk.1.2
      let rest := pk.2
      if v ∈ st.settled then
        searchLoop G sel start goal fuel { st with frontier := rest }
      else if v = goal then some st.pred
      else searchLoop G sel start goal fuel (settleState G start st v gv rest)

/-- Fuel sufficient for `searchLoop` to run until its open list is
exhausted (strictly more than the initial value of `potential` below). -/
def searchFuel (G : SearchGraph) : Nat :=
  (∑ v ∈ Finset.range G.n, ((G.neighbors v).length + 1)) + 2

/-- `find_path` of the generic engine: run the loop from the open list
`[(start, 0)]` and reconstruct the path from the recorded predecessors. -/
def findPathWith (G : SearchGraph) (sel : List (Nat × Rat) → Nat)
    (start goal : Nat) : List Nat :=
  match searchLoop G sel start goal (searchFuel G)
      ⟨[(start, 0)], [], []⟩ with
  | none => []
  | some pred => (buildPath pred start (pred.length + 1) goal).getD []

/-- Modelled from the spec: `BFS::find_path` (`bfs.cpp`, not among the
sources) uses a FIFO frontier — it always pops the earliest-inserted open
entry. -/
def BFS.find_path (G : SearchGraph) (start goal : Nat) : List Nat :=
  findPathWith G (fun _ => 0) start goal

/-- Modelled from the spec: `Dijkstra::find_path` (`dijkstra.cpp`, not
among the sources) pops the open entry of minimal tentative distance. -/
def Dijkstra.find_path (G : SearchGraph) (start goal : Nat) : List Nat :=
  findPathWith G (fun l => argminIdx Prod.snd l) start goal

/-- Modelled from the spec: `AStar::find_path` (`a_star.cpp`, not among
the sources) pops the open entry of minimal `f = g + h`, with
`h = estimate_distance(v, goal)`. -/
def AStar.find_path (G : SearchGraph) (start goal : Nat) : List Nat :=
  findPathWith G (fun l => argminIdx (fun e => e.2 + G.estimate e.1 goal) l)
    start goal

/-- Potential of a search state: the loop strictly decreases it, so it
bounds the number of remaining iterations. -/
def potential (G : SearchGraph) (st : SearchState) : Nat :=
  st.frontier.length +
    ∑ v ∈ (Finset.range G.n).filter (fun v => v ∉ st.settled),
      ((G.neighbors v).length + 1)

theorem pickAt_spec : ∀ (l : List α) (i : Nat) (a : α) (rest : List α),
    pickAt l i = some (a, rest) →
    a ∈ l ∧ rest.length + 1 = l.length ∧
      (∀ x ∈ l, x = a ∨ x ∈ rest) ∧ (∀ x ∈ rest, x ∈ l) := by
  intro l
  induction l with
  | nil => intro i a rest h; simp [pickAt] at h
  | cons b bs ih =>
    intro i a rest h
    cases i with
    | zero =>
      simp only [pickAt, Option.some.injEq, Prod.mk.injEq] at h
      obtain ⟨rfl, rfl⟩ := h
      refine ⟨List.mem_cons_self _ _, by simp, ?_, ?_⟩
      · intro x hx
        rcases List.mem_cons.1 hx with h | h
        · exact Or.inl h
        · exact Or.inr h
      · intro x hx; exact List.mem_cons_of_mem _ hx
    | succ j =>
      simp only [pickAt, Option.map_eq_some'] at h
      obtain ⟨⟨a', rest'⟩, hpk, hq⟩ := h
      simp only [Prod.mk.injEq] at hq
      obtain ⟨rfl, rfl⟩ := hq
      obtain ⟨hmem, hlen, hcov, hsub⟩ := ih j a' rest' hpk
      refine ⟨List.mem_cons_of_mem _ hmem, by simp [← hlen], ?_, ?_⟩
      · intro x hx
        rcases List.mem_cons.1 hx with rfl | h
        · exact Or.inr (List.mem_cons_self _ _)
        · rcases hcov x h with h' | h'
          · exact Or.inl h'
          · exact Or.inr (List.mem_cons_of_mem _ h')
      · intro x hx
        rcases List.mem_cons.1 hx with rfl | h
        · exact List.mem_cons_self _ _
        · exact List.mem_cons_of_mem _ (hsub x h)

theorem pickAt_isSome : ∀ (l : List α) (i : Nat), i < l.length →
    (pickAt l i).isSome := by
  intro l
  induction l with
  | nil => intro i h; simp at h
  | cons b bs ih =>
    intro i h
    cases i with
    | zero => simp [pickAt]
    | succ j =>
      simp only [List.length_cons, Nat.succ_lt_succ_iff] at h
      simp only [pickAt, Option.isSome_map']
      exact ih j h

theorem pickClamped_spec (e : α) (es : List α) (i : Nat) :
    (pickClamped e es i).1 ∈ e :: es ∧
    (pickClamped e es i).2.length = es.length ∧
    (∀ x ∈ e :: es, x = (pickClamped e es i).1 ∨ x ∈ (pickClamped e es i).2) ∧
    (∀ x ∈ (pickClamped e es i).2, x ∈ e :: es) := by
  have hlt : min i es.length < (e :: es).length := by
    simp only [List.length_cons]; omega
  have hsome := pickAt_isSome (e :: es) (min i es.length) hlt
  obtain ⟨⟨a, rest⟩, hp⟩ := Option.isSome_iff_exists.1 hsome
  obtain ⟨hmem, hlen, hcov, hsub⟩ := pickAt_spec (e :: es) _ a rest hp
  have hpc : pickClamped e es i = (a, rest) := by
    unfold pickClamped
    rw [hp]
  rw [hpc]
  simp only [List.length_cons] at hlen
  refine ⟨hmem, ?_, hcov, hsub⟩
  show rest.length = es.length
  omega

theorem lookupPred_cons (c q v : Nat) (rest : List (Nat × Nat)) :
    lookupPred ((c, q) :: rest) v =
      if c = v then some q else lookupPred rest v := by
  simp only [lookupPred, List.find?]
  by_cases h : c = v
  · simp [h]
  · simp [h, beq_eq_false_iff_ne.2 h]

theorem buildPath_succ (pred : List (Nat × Nat)) (start fuel v : Nat) :
    buildPath pred start (fuel + 1) v =
      (if v = start then some [start]
       else
         match lookupPred pred v with
         | none => none
         | some u => (buildPath pred start fuel u).map (fun p => p ++ [v])) :=
  rfl

theorem buildPath_mono (pred : List (Nat × Nat)) (start : Nat) :
    ∀ fuel v p, buildPath pred start fuel v = some p →
      buildPath pred start (fuel + 1) v = some p := by
  intro fuel
  induction fuel with
  | zero => intro v p h; simp [buildPath] at h
  | succ fuel ih =>
    intro v p h
    rw [buildPath_succ] at h
    rw [buildPath_succ]
    by_cases hv : v = start
    · rw [if_pos hv] at h ⊢; exact h
    · rw [if_neg hv] at h ⊢
      cases hl : lookupPred pred v with
      | none =>
        rw [hl] at h
        replace h : (none : Option (List Nat)) = some p := h
        exact Option.noConfusion h
      | some u =>
        rw [hl] at h
        replace h : (buildPath pred start fuel u).map (fun r => r ++ [v]) =
            some p := h
        show (buildPath pred start (fuel + 1) u).map (fun r => r ++ [v]) =
            some p
        simp only [Option.map_eq_some'] at h ⊢
        obtain ⟨q, hq, hq2⟩ := h
        exact ⟨q, ih u q hq, hq2⟩

theorem buildPath_le (pred : List (Nat × Nat)) (start : Nat)
    {fuel fuel2 : Nat} (hle : fuel ≤ fuel2) :
    ∀ v p, buildPath pred start fuel v = some p →
      buildPath pred start fuel2 v = some p := by
  obtain ⟨k, rfl⟩ := Nat.exists_eq_add_of_le hle
  clear hle
  induction k with
  | zero => intro v p h; exact h
  | succ k ih =>
    intro v p h
    have : fuel + (k + 1) = (fuel + k) + 1 := by omega
    rw [this]
    exact buildPath_mono pred start (fuel + k) v p (ih v p h)

theorem buildPath_shape (pred : List (Nat × Nat)) (start : Nat) :
    ∀ fuel v p, buildPath pred start fuel v = some p →
      p ≠ [] ∧ p.head? = some start ∧ p.getLast? = some v := by
  intro fuel
  induction fuel with
  | zero => intro v p h; simp [buildPath] at h
  | succ fuel ih =>
    intro v p h
    rw [buildPath_succ] at h
    by_cases hv : v = start
    · subst hv
      rw [if_pos rfl] at h
      obtain rfl := Option.some.inj h
      exact ⟨by simp, rfl, rfl⟩
    · rw [if_neg hv] at h
      cases hl : lookupPred pred v with
      | none =>
        rw [hl] at h
        replace h : (none : Option (List Nat)) = some p := h
        exact absurd h (by simp)
      | some u =>
        rw [hl] at h
        replace h : (buildPath pred start fuel u).map (fun r => r ++ [v]) =
            some p := h
        simp only [Option.map_eq_some'] at h
        obtain ⟨q, hq, rfl⟩ := h
        obtain ⟨hne, hhead, _⟩ := ih u q hq
        refine ⟨by simp, ?_, by simp⟩
        rw [List.head?_append_of_ne_nil _ hne]
        exact hhead

theorem buildPath_ext (rest : List (Nat × Nat)) (start c q : Nat)
    (hc : lookupPred rest c = none) :
    ∀ fuel v p, buildPath rest start fuel v = some p →
      buildPath ((c, q) :: rest) start fuel v = some p := by
  intro fuel
  induction fuel with
  | zero => intro v p h; simp [buildPath] at h
  | succ fuel ih =>
    intro v p h
    rw [buildPath_succ] at h
    rw [buildPath_succ]
    by_cases hv : v = start
    · rw [if_pos hv] at h ⊢; exact h
    · rw [if_neg hv] at h ⊢
      cases hl : lookupPred rest v with
      | none =>
        rw [hl] at h
        replace h : (none : Option (List Nat)) = some p := h
        exact absurd h (by simp)
      | some u =>
        have hcv : c ≠ v := by
          intro he
          rw [he] at hc
          rw [hc] at hl
          exact Option.noConfusion hl
        rw [hl] at h
        replace h : (buildPath rest start fuel u).map (fun r => r ++ [v]) =
            some p := h
        rw [lookupPred_cons, if_neg hcv, hl]
        show (buildPath ((c, q) :: rest) start fuel u).map
            (fun r => r ++ [v]) = some p
        simp only [Option.map_eq_some'] at h ⊢
        obtain ⟨p', hp', hp2⟩ := h
        exact ⟨p', ih u p' hp', hp2⟩

theorem WFPred_buildPath_isSome (start : Nat) :
    ∀ pred : List (Nat × Nat), WFPred start pred →
      ∀ v, v = start ∨ (lookupPred pred v).isSome →
        ∃ p, buildPath pred start (pred.length + 1) v = some p := by
  intro pred
  induction pred with
  | nil =>
    intro _ v hv
    rcases hv with rfl | hv
    · exact ⟨[v], by simp [buildPath]⟩
    · simp [lookupPred] at hv
  | cons cq rest ih =>
    obtain ⟨c, q⟩ := cq
    intro hwf v hv
    obtain ⟨hcs, hcn, hq, hwr⟩ := hwf
    rcases hv with rfl | hv
    · exact ⟨[v], by rw [buildPath_succ, if_pos rfl]⟩
    · rw [lookupPred_cons] at hv
      by_cases hcv : c = v
      · subst hcv
        have hqq : ∃ p, buildPath rest start (rest.length + 1) q = some p :=
          ih hwr q hq
        obtain ⟨p, hp⟩ := hqq
        have hext := buildPath_ext rest start c q hcn _ q p hp
        refine ⟨p ++ [c], ?_⟩
        rw [buildPath_succ, if_neg hcs, lookupPred_cons, if_pos rfl]
        show ((buildPath ((c, q) :: rest) start (rest.length + 1) q).map
          (fun r => r ++ [c])) = some (p ++ [c])
        rw [hext]
        rfl
      · rw [if_neg hcv] at hv
        obtain ⟨p, hp⟩ := ih hwr v (Or.inr hv)
        have hext := buildPath_ext rest start c q hcn _ v p hp
        exact ⟨p, buildPath_mono _ start _ v p hext⟩

theorem WFPred_reachable (G : SearchGraph) (start : Nat) :
    ∀ pred : List (Nat × Nat), WFPred start pred →
      (∀ e ∈ pred, G.Edge e.2 e.1) →
      ∀ v, v = start ∨ (lookupPred pred v).isSome → G.Reachable start v := by
  intro pred
  induction pred with
  | nil =>
    intro _ _ v hv
    rcases hv with rfl | hv
    · exact Relation.ReflTransGen.refl
    · simp [lookupPred] at hv
  | cons cq rest ih =>
    obtain ⟨c, q⟩ := cq
    intro hwf hedges v hv
    obtain ⟨hcs, hcn, hq, hwr⟩ := hwf
    have hedges' : ∀ e ∈ rest, G.Edge e.2 e.1 := fun e he =>
      hedges e (List.mem_cons_of_mem _ he)
    rcases hv with rfl | hv
    · exact Relation.ReflTransGen.refl
    · rw [lookupPred_cons] at hv
      by_cases hcv : c = v
      · subst hcv
        have hrq : G.Reachable start q := ih hwr hedges' q hq
        have hedge : G.Edge q c := hedges (c, q) (List.mem_cons_self _ _)
        exact Relation.ReflTransGen.tail hrq hedge
      · rw [if_neg hcv] at hv
        exact ih hwr hedges' v (Or.inr hv)

theorem addPreds_lookup_mono (start v u : Nat) :
    ∀ (us : List Nat) (pred : List (Nat × Nat)),
      (lookupPred pred u).isSome →
      (lookupPred (addPreds start v pred us) u).isSome := by
  intro us
  induction us with
  | nil => intro pred h; exact h
  | cons w ws ih =>
    intro pred h
    show (lookupPred (addPreds start v
      (if w = start ∨ (lookupPred pred w).isSome then pred
       else (w, v) :: pred) ws) u).isSome
    by_cases hw : w = start ∨ (lookupPred pred w).isSome
    · rw [if_pos hw]; exact ih pred h
    · rw [if_neg hw]
      refine ih _ ?_
      rw [lookupPred_cons]
      by_cases hwu : w = u
      · rw [if_pos hwu]; simp
      · rw [if_neg hwu]; exact h

theorem addPreds_wf (start v : Nat) :
    ∀ (us : List Nat) (pred : List (Nat × Nat)), WFPred start pred →
      (v = start ∨ (lookupPred pred v).isSome) →
      WFPred start (addPreds start v pred us) := by
  intro us
  induction us with
  | nil => intro pred hwf _; exact hwf
  | cons w ws ih =>
    intro pred hwf hv
    show WFPred start (addPreds start v
      (if w = start ∨ (lookupPred pred w).isSome then pred
       else (w, v) :: pred) ws)
    by_cases hw : w = start ∨ (lookupPred pred w).isSome
    · rw [if_pos hw]; exact ih pred hwf hv
    · rw [if_neg hw]
      push_neg at hw
      obtain ⟨hws, hwn⟩ := hw
      have hwn' : lookupPred pred w = none :=
        Option.not_isSome_iff_eq_none.1 (by simpa using hwn)
      refine ih _ ⟨hws, hwn', hv, hwf⟩ ?_
      rcases hv with rfl | hv
      · exact Or.inl rfl
      · refine Or.inr ?_
        rw [lookupPred_cons]
        by_cases hwv : w = v
        · rw [if_pos hwv]; simp
        · rw [if_neg hwv]; exact hv

theorem addPreds_covers (start v : Nat) :
    ∀ (us : List Nat) (pred : List (Nat × Nat)), ∀ u ∈ us,
      u = start ∨ (lookupPred (addPreds start v pred us) u).isSome := by
  intro us
  induction us with
  | nil => intro pred u hu; simp at hu
  | cons w ws ih =>
    intro pred u hu
    have hstep : addPreds start v pred (w :: ws) = addPreds start v
        (if w = start ∨ (lookupPred pred w).isSome then pred
         else (w, v) :: pred) ws := rfl
    rcases List.mem_cons.1 hu with rfl | hu
    · by_cases hw : u = start ∨ (lookupPred pred u).isSome
      · rcases hw with rfl | hw
        · exact Or.inl rfl
        · refine Or.inr ?_
          rw [hstep, if_pos (Or.inr hw)]
          exact addPreds_lookup_mono start v u ws pred hw
      · refine Or.inr ?_
        rw [hstep, if_neg hw]
        refine addPreds_lookup_mono start v u ws _ ?_
        rw [lookupPred_cons, if_pos rfl]
        simp
    · rw [hstep]
      exact ih _ u hu

theorem addPreds_mem (start v : Nat) :
    ∀ (us : List Nat) (pred : List (Nat × Nat)),
      ∀ e ∈ addPreds start v pred us, e ∈ pred ∨ (e.2 = v ∧ e.1 ∈ us) := by
  intro us
  induction us with
  | nil => intro pred e he; exact Or.inl he
  | cons w ws ih =>
    intro pred e he
    have hstep : addPreds start v pred (w :: ws) = addPreds start v
        (if w = start ∨ (lookupPred pred w).isSome then pred
         else (w, v) :: pred) ws := rfl
    rw [hstep] at he
    rcases ih _ e he with h | ⟨h2, h1⟩
    · by_cases hw : w = start ∨ (lookupPred pred w).isSome
      · rw [if_pos hw] at h; exact Or.inl h
      · rw [if_neg hw] at h
        rcases List.mem_cons.1 h with rfl | h
        · exact Or.inr ⟨rfl, List.mem_cons_self _ _⟩
        · exact Or.inl h
    · exact Or.inr ⟨h2, List.mem_cons_of_mem _ h1⟩

/-- Invariant of the generic search loop: frontier and closed set hold
in-range vertices, the start vertex is open or closed, closed vertices
have all neighbors open or closed, the goal is never closed, and the
predecessor list is well formed, covers every open and closed vertex, and
records only graph edges. -/
structure LoopInv (G : SearchGraph) (start goal : Nat) (st : SearchState) :
    Prop where
  frontier_range : ∀ x ∈ st.frontier, x.1 < G.n
  settled_range : ∀ v ∈ st.settled, v < G.n
  start_mem : start ∈ st.settled ∨ ∃ x ∈ st.frontier, x.1 = start
  closed : ∀ v ∈ st.settled, ∀ p ∈ G.neighbors v,
    p.1 ∈ st.settled ∨ ∃ x ∈ st.frontier, x.1 = p.1
  goal_not_settled : goal ∉ st.settled
  wfpred : WFPred start st.pred
  pred_edges : ∀ e ∈ st.pred, G.Edge e.2 e.1
  frontier_pred : ∀ x ∈ st.frontier,
    x.1 = start ∨ (lookupPred st.pred x.1).isSome
  settled_pred : ∀ v ∈ st.settled,
    v = start ∨ (lookupPred st.pred v).isSome

theorem inv_skip (G : SearchGraph) (start goal : Nat) (st : SearchState)
    (v : Nat) (gv : Rat) (rest : List (Nat × Rat))
    (hcov : ∀ x ∈ st.frontier, x = (v, gv) ∨ x ∈ rest)
    (hsub : ∀ x ∈ rest, x ∈ st.frontier)
    (hv : v ∈ st.settled)
    (hinv : LoopInv G start goal st) :
    LoopInv G start goal { st with frontier := rest } where
  frontier_range := fun x hx => hinv.frontier_range x (hsub x hx)
  settled_range := hinv.settled_range
  start_mem := by
    rcases hinv.start_mem with h | ⟨x, hx, hx1⟩
    · exact Or.inl h
    · rcases hcov x hx with rfl | hx'
      · exact Or.inl (hx1 ▸ hv)
      · exact Or.inr ⟨x, hx', hx1⟩
  closed := by
    intro u hu p hp
    rcases hinv.closed u hu p hp with h | ⟨x, hx, hx1⟩
    · exact Or.inl h
    · rcases hcov x hx with rfl | hx'
      · exact Or.inl (hx1 ▸ hv)
      · exact Or.inr ⟨x, hx', hx1⟩
  goal_not_settled := hinv.goal_not_settled
  wfpred := hinv.wfpred
  pred_edges := hinv.pred_edges
  frontier_pred := fun x hx => hinv.frontier_pred x (hsub x hx)
  settled_pred := hinv.settled_pred

theorem inv_settle (G : SearchGraph) (hG : G.WellFormed)
    (start goal : Nat) (st : SearchState)
    (v : Nat) (gv : Rat) (rest : List (Nat × Rat))
    (hcov : ∀ x ∈ st.frontier, x = (v, gv) ∨ x ∈ rest)
    (hsub : ∀ x ∈ rest, x ∈ st.frontier)
    (hmem : (v, gv) ∈ st.frontier)
    (hvs : v ∉ st.settled) (hvg : v ≠ goal)
    (hinv : LoopInv G start goal st) :
    LoopInv G start goal (settleState G start st v gv rest) where
  frontier_range := by
    intro x hx
    rcases List.mem_append.1 hx with hx | hx
    · exact hinv.frontier_range x (hsub x hx)
    · obtain ⟨p, hp, rfl⟩ := List.mem_map.1 hx
      exact hG v (hinv.frontier_range (v, gv) hmem) p hp
  settled_range := by
    intro u hu
    rcases List.mem_cons.1 hu with h | hu
    · rw [h]; exact hinv.frontier_range (v, gv) hmem
    · exact hinv.settled_range u hu
  start_mem := by
    rcases hinv.start_mem with h | ⟨x, hx, hx1⟩
    · exact Or.inl (List.mem_cons_of_mem _ h)
    · rcases hcov x hx with rfl | hx'
      · exact Or.inl (hx1 ▸ List.mem_cons_self _ _)
      · exact Or.inr ⟨x, List.mem_append_left _ hx', hx1⟩
  closed := by
    intro u hu p hp
    rcases List.mem_cons.1 hu with h | hu
    · subst h
      exact Or.inr ⟨(p.1, gv + p.2),
        List.mem_append_right _ (List.mem_map.2 ⟨p, hp, rfl⟩), rfl⟩
    · rcases hinv.closed u hu p hp with h | ⟨x, hx, hx1⟩
      · exact Or.inl (List.mem_cons_of_mem _ h)
      · rcases hcov x hx with rfl | hx'
        · exact Or.inl (hx1 ▸ List.mem_cons_self _ _)
        · exact Or.inr ⟨x, List.mem_append_left _ hx', hx1⟩
  goal_not_settled := by
    intro h
    rcases List.mem_cons.1 h with h | h
    · exact hvg h.symm
    · exact hinv.goal_not_settled h
  wfpred :=
    addPreds_wf start v _ st.pred hinv.wfpred
      (hinv.frontier_pred (v, gv) hmem)
  pred_edges := by
    intro e he
    rcases addPreds_mem start v _ st.pred e he with h | ⟨h2, h1⟩
    · exact hinv.pred_edges e h
    · obtain ⟨p, hp, hp1⟩ := List.mem_map.1 h1
      rw [h2]
      exact List.mem_map.2 ⟨p, hp, hp1⟩
  frontier_pred := by
    intro x hx
    rcases List.mem_append.1 hx with hx | hx
    · rcases hinv.frontier_pred x (hsub x hx) with h | h
      · exact Or.inl h
      · exact Or.inr (addPreds_lookup_mono start v x.1 _ st.pred h)
    · obtain ⟨p, hp, rfl⟩ := List.mem_map.1 hx
      exact addPreds_covers start v _ st.pred p.1
        (List.mem_map.2 ⟨p, hp, rfl⟩)
  settled_pred := by
    intro u hu
    rcases List.mem_cons.1 hu with h | hu
    · rw [h]
      rcases hinv.frontier_pred (v, gv) hmem with h2 | h2
      · exact Or.inl h2
      · exact Or.inr (addPreds_lookup_mono start v v _ st.pred h2)
    · rcases hinv.settled_pred u hu with h2 | h2
      · exact Or.inl h2
      · exact Or.inr (addPreds_lookup_mono start v u _ st.pred h2)

theorem potential_skip (G : SearchGraph) (st : SearchState)
    (e : Nat × Rat) (es rest : List (Nat × Rat))
    (hf : st.frontier = e :: es) (hlen : rest.length = es.length) :
    potential G st = potential G { st with frontier := rest } + 1 := by
  unfold potential
  rw [hf]
  simp only [List.length_cons, hlen]
  omega

theorem potential_settle (G : SearchGraph) (start : Nat) (st : SearchState)
    (v : Nat) (gv : Rat) (e : Nat × Rat) (es rest : List (Nat × Rat))
    (hf : st.frontier = e :: es) (hlen : rest.length = es.length)
    (hvn : v < G.n) (hvs : v ∉ st.settled) :
    potential G st = potential G (settleState G start st v gv rest) + 2 := by
  have hv' : v ∈ (Finset.range G.n).filter (fun u => u ∉ st.settled) :=
    Finset.mem_filter.2 ⟨Finset.mem_range.2 hvn, hvs⟩
  have hfe : (Finset.range G.n).filter (fun u => u ∉ (v :: st.settled)) =
      ((Finset.range G.n).filter (fun u => u ∉ st.settled)).erase v := by
    ext u
    simp only [Finset.mem_filter, Finset.mem_erase, Finset.mem_range,
      List.mem_cons, not_or]
    tauto
  have hsum := Finset.sum_erase_add
    ((Finset.range G.n).filter (fun u => u ∉ st.settled))
    (fun u => (G.neighbors u).length + 1) hv'
  dsimp only at hsum
  unfold potential
  rw [hf]
  show (e :: es).length + _ = (rest ++ (G.neighbors v).map _).length + _ + 2
  rw [List.length_append, List.length_map, List.length_cons, hlen]
  show es.length + 1 + ∑ u ∈ (Finset.range G.n).filter
      (fun u => u ∉ st.settled), ((G.neighbors u).length + 1) =
    es.length + (G.neighbors v).length + (∑ u ∈ (Finset.range G.n).filter
      (fun u => u ∉ (v :: st.settled)), ((G.neighbors u).length + 1)) + 2
  rw [hfe]
  omega

theorem reachable_mem_of_closed (G : SearchGraph) (S : List Nat)
    (start t : Nat)
    (hcl : ∀ v ∈ S, ∀ p ∈ G.neighbors v, p.1 ∈ S)
    (hreach : G.Reachable start t) (hstart : start ∈ S) : t ∈ S := by
  induction hreach with
  | refl => exact hstart
  | tail _ hedge ih =>
    obtain ⟨p, hp, hp1⟩ := List.mem_map.1 hedge
    exact hp1 ▸ hcl _ ih p hp

theorem searchLoop_zero (G : SearchGraph) (sel : List (Nat × Rat) → Nat)
    (start goal : Nat) (st : SearchState) :
    searchLoop G sel start goal 0 st = none := rfl

theorem searchLoop_succ_nil (G : SearchGraph) (sel : List (Nat × Rat) → Nat)
    (start goal fuel : Nat) (st : SearchState) (hf : st.frontier = []) :
    searchLoop G sel start goal (fuel + 1) st = none := by
  obtain ⟨f, s, p⟩ := st
  simp only at hf
  subst hf
  rfl

theorem searchLoop_succ_cons (G : SearchGraph) (sel : List (Nat × Rat) → Nat)
    (start goal fuel : Nat) (st : SearchState) (e : Nat × Rat)
    (es : List (Nat × Rat)) (hf : st.frontier = e :: es) :
    searchLoop G sel start goal (fuel + 1) st =
      (if (pickClamped e es (sel (e :: es))).1.1 ∈ st.settled then
        searchLoop G sel start goal fuel
          { st with frontier := (pickClamped e es (sel (e :: es))).2 }
      else if (pickClamped e es (sel (e :: es))).1.1 = goal then
        some st.pred
      else
        searchLoop G sel start goal fuel
          (settleState G start st (pickClamped e es (sel (e :: es))).1.1
            (pickClamped e es (sel (e :: es))).1.2
            (pickClamped e es (sel (e :: es))).2)) := by
  obtain ⟨f, s, p⟩ := st
  simp only at hf
  subst hf
  rfl

theorem searchLoop_none_not_reachable (G : SearchGraph) (hG : G.WellFormed)
    (sel : List (Nat × Rat) → Nat) (start goal : Nat) :
    ∀ fuel st, LoopInv G start goal st → potential G st < fuel →
      searchLoop G sel start goal fuel st = none →
      ¬ G.Reachable start goal := by
  intro fuel
  induction fuel with
  | zero => intro st _ hpot; exact absurd hpot (Nat.not_lt_zero _)
  | succ fuel ih =>
    intro st hinv hpot hrun
    cases hf : st.frontier with
    | nil =>
      intro hreach
      have hstart : start ∈ st.settled := by
        rcases hinv.start_mem with h | ⟨x, hx, _⟩
        · exact h
        · rw [hf] at hx; exact absurd hx (List.not_mem_nil x)
      have hcl : ∀ v ∈ st.settled, ∀ p ∈ G.neighbors v, p.1 ∈ st.settled := by
        intro v hv p hp
        rcases hinv.closed v hv p hp with h | ⟨x, hx, _⟩
        · exact h
        · rw [hf] at hx; exact absurd hx (List.not_mem_nil x)
      exact hinv.goal_not_settled
        (reachable_mem_of_closed G st.settled start goal hcl hreach hstart)
    | cons e es =>
      rw [searchLoop_succ_cons G sel start goal fuel st e es hf] at hrun
      obtain ⟨hmem, hlen, hcov, hsub⟩ := pickClamped_spec e es (sel (e :: es))
      have hmemf : (pickClamped e es (sel (e :: es))).1 ∈ st.frontier := by
        rw [hf]; exact hmem
      have hcov' : ∀ x ∈ st.frontier,
          x = ((pickClamped e es (sel (e :: es))).1.1,
               (pickClamped e es (sel (e :: es))).1.2) ∨
          x ∈ (pickClamped e es (sel (e :: es))).2 := by
        intro x hx
        rw [hf] at hx
        rcases hcov x hx with h | h
        · left; rw [h]
        · right; exact h
      have hsub' : ∀ x ∈ (pickClamped e es (sel (e :: es))).2,
          x ∈ st.frontier := by
        intro x hx; rw [hf]; exact hsub x hx
      by_cases h1 : (pickClamped e es (sel (e :: es))).1.1 ∈ st.settled
      · rw [if_pos h1] at hrun
        have hinv' := inv_skip G start goal st _ _ _ hcov' hsub' h1 hinv
        have hps := potential_skip G st e es
          (pickClamped e es (sel (e :: es))).2 hf hlen
        exact ih _ hinv' (by omega) hrun
      · rw [if_neg h1] at hrun
        by_cases h2 : (pickClamped e es (sel (e :: es))).1.1 = goal
        · rw [if_pos h2] at hrun
          exact absurd hrun (by simp)
        · rw [if_neg h2] at hrun
          have hmem' : ((pickClamped e es (sel (e :: es))).1.1,
              (pickClamped e es (sel (e :: es))).1.2) ∈ st.frontier := by
            rw [Prod.mk.eta]; exact hmemf
          have hinv' := inv_settle G hG start goal st _ _ _
            hcov' hsub' hmem' h1 h2 hinv
          have hvn : (pickClamped e es (sel (e :: es))).1.1 < G.n :=
            hinv.frontier_range _ hmemf
          have hps := potential_settle G start st
            (pickClamped e es (sel (e :: es))).1.1
            (pickClamped e es (sel (e :: es))).1.2 e es
            (pickClamped e es (sel (e :: es))).2 hf hlen hvn h1
          exact ih _ hinv' (by omega) hrun

theorem searchLoop_some_spec (G : SearchGraph) (hG : G.WellFormed)
    (sel : List (Nat × Rat) → Nat) (start goal : Nat) :
    ∀ fuel st pred, LoopInv G start goal st →
      searchLoop G sel start goal fuel st = some pred →
      WFPred start pred ∧ (∀ e ∈ pred, G.Edge e.2 e.1) ∧
        (goal = start ∨ (lookupPred pred goal).isSome) := by
  intro fuel
  induction fuel with
  | zero =>
    intro st pred _ hrun
    rw [searchLoop_zero] at hrun
    exact absurd hrun (by simp)
  | succ fuel ih =>
    intro st pred hinv hrun
    cases hf : st.frontier with
    | nil =>
      rw [searchLoop_succ_nil G sel start goal fuel st hf] at hrun
      exact absurd hrun (by simp)
    | cons e es =>
      rw [searchLoop_succ_cons G sel start goal fuel st e es hf] at hrun
      obtain ⟨hmem, hlen, hcov, hsub⟩ := pickClamped_spec e es (sel (e :: es))
      have hmemf : (pickClamped e es (sel (e :: es))).1 ∈ st.frontier := by
        rw [hf]; exact hmem
      have hcov' : ∀ x ∈ st.frontier,
          x = ((pickClamped e es (sel (e :: es))).1.1,
               (pickClamped e es (sel (e :: es))).1.2) ∨
          x ∈ (pickClamped e es (sel (e :: es))).2 := by
        intro x hx
        rw [hf] at hx
        rcases hcov x hx with h | h
        · left; rw [h]
        · right; exact h
      have hsub' : ∀ x ∈ (pickClamped e es (sel (e :: es))).2,
          x ∈ st.frontier := by
        intro x hx; rw [hf]; exact hsub x hx
      by_cases h1 : (pickClamped e es (sel (e :: es))).1.1 ∈ st.settled
      · rw [if_pos h1] at hrun
        exact ih _ pred (inv_skip G start goal st _ _ _ hcov' hsub' h1 hinv)
          hrun
      · rw [if_neg h1] at hrun
        by_cases h2 : (pickClamped e es (sel (e :: es))).1.1 = goal
        · rw [if_pos h2] at hrun
          obtain rfl := Option.some.inj hrun
          refine ⟨hinv.wfpred, hinv.pred_edges, ?_⟩
          have hfp := hinv.frontier_pred _ hmemf
          rw [h2] at hfp
          exact hfp
        · rw [if_neg h2] at hrun
          have hmem' : ((pickClamped e es (sel (e :: es))).1.1,
              (pickClamped e es (sel (e :: es))).1.2) ∈ st.frontier := by
            rw [Prod.mk.eta]; exact hmemf
          exact ih _ pred (inv_settle G hG start goal st _ _ _
            hcov' hsub' hmem' h1 h2 hinv) hrun

theorem searchLoop_self (G : SearchGraph) (sel : List (Nat × Rat) → Nat)
    (start fuel : Nat) :
    searchLoop G sel start start (fuel + 1) ⟨[(start, 0)], [], []⟩ =
      some [] := by
  rw [searchLoop_succ_cons G sel start start fuel _ (start, 0) [] rfl]
  have hpk : pickClamped (start, (0 : Rat)) [] (sel [(start, 0)]) =
      ((start, 0), []) := by
    unfold pickClamped
    simp [pickAt, Nat.min_zero]
  rw [hpk]
  simp

/-- The common `find_path` contract of the spec: an empty result exactly
when no path exists, the singleton `[start]` when `start = goal`, and a
nonempty result beginning with `start` and ending with `goal`. -/
def FindPathContract (G : SearchGraph) (fp : Nat → Nat → List Nat)
    (start goal : Nat) : Prop :=
  (fp start goal = [] ↔ ¬ G.Reachable start goal) ∧
  (start = goal → fp start goal = [start]) ∧
  (fp start goal ≠ [] →
    (fp start goal).head? = some start ∧
    (fp start goal).getLast? = some goal)

theorem findPathWith_contract (G : SearchGraph) (hG : G.WellFormed)
    (sel : List (Nat × Rat) → Nat) (start goal : Nat) (hs : start < G.n) :
    FindPathContract G (findPathWith G sel) start goal := by
  have hinv0 : LoopInv G start goal ⟨[(start, 0)], [], []⟩ := {
    frontier_range := by
      intro x hx
      rw [List.mem_singleton] at hx
      subst hx
      exact hs
    settled_range := by intro v hv; exact absurd hv (List.not_mem_nil v)
    start_mem := Or.inr ⟨(start, 0), List.mem_singleton.2 rfl, rfl⟩
    closed := by intro v hv; exact absurd hv (List.not_mem_nil v)
    goal_not_settled := List.not_mem_nil goal
    wfpred := trivial
    pred_edges := by intro e he; exact absurd he (List.not_mem_nil e)
    frontier_pred := by
      intro x hx
      rw [List.mem_singleton] at hx
      subst hx
      exact Or.inl rfl
    settled_pred := by intro v hv; exact absurd hv (List.not_mem_nil v) }
  have hpot0 : potential G ⟨[(start, 0)], [], []⟩ < searchFuel G := by
    show [(start, (0 : Rat))].length +
        ∑ v ∈ (Finset.range G.n).filter (fun v => v ∉ ([] : List Nat)),
          ((G.neighbors v).length + 1) < searchFuel G
    have hfil : (Finset.range G.n).filter (fun v => v ∉ ([] : List Nat)) =
        Finset.range G.n :=
      Finset.filter_true_of_mem (fun v _ => List.not_mem_nil v)
    rw [hfil]
    unfold searchFuel
    simp only [List.length_singleton]
    omega
  obtain ⟨k, hk⟩ : ∃ k, searchFuel G = k + 1 :=
    ⟨(∑ v ∈ Finset.range G.n, ((G.neighbors v).length + 1)) + 1, rfl⟩
  cases hloop : searchLoop G sel start goal (searchFuel G)
      ⟨[(start, 0)], [], []⟩ with
  | none =>
    have hempty : findPathWith G sel start goal = [] := by
      unfold findPathWith
      rw [hloop]
    have hnreach := searchLoop_none_not_reachable G hG sel start goal _ _
      hinv0 hpot0 hloop
    refine ⟨?_, ?_, ?_⟩
    · rw [hempty]
      exact iff_of_true rfl hnreach
    · intro h
      rw [h] at hloop
      rw [hk, searchLoop_self G sel goal k] at hloop
      exact absurd hloop (by simp)
    · intro h
      exact absurd hempty h
  | some pred =>
    obtain ⟨hwfp, hedges, hgoal⟩ :=
      searchLoop_some_spec G hG sel start goal _ _ pred hinv0 hloop
    obtain ⟨p, hp⟩ := WFPred_buildPath_isSome start pred hwfp goal hgoal
    have hres : findPathWith G sel start goal = p := by
      unfold findPathWith
      rw [hloop]
      show (buildPath pred start (pred.length + 1) goal).getD [] = p
      rw [hp]
      rfl
    obtain ⟨hne, hhead, hlast⟩ := buildPath_shape pred start _ goal p hp
    have hreach : G.Reachable start goal :=
      WFPred_reachable G start pred hwfp hedges goal hgoal
    refine ⟨?_, ?_, ?_⟩
    · rw [hres]
      exact iff_of_false hne (not_not_intro hreach)
    · intro h
      have hp' := hp
      rw [← h] at hp'
      rw [buildPath_succ, if_pos rfl] at hp'
      obtain rfl := Option.some.inj hp'
      rw [h] at hres
      rw [h]
      exact hres
    · intro _
      rw [hres]
      exact ⟨hhead, hlast⟩

theorem get_weight_eq (g : AbsGrid) (v : Nat) (hv : v < g.weights_.length) :
    g.get_weight v = .ok (g.weights_.get ⟨v, hv⟩) := by
  unfold AbsGrid.get_weight
  rw [dif_pos ⟨Int.natCast_nonneg v, by simpa using hv⟩]
  simp [List.get_eq_getElem, Int.toNat_natCast]

theorem get_weight_out (g : AbsGrid) (v : Int)
    (hv : v < 0 ∨ (g.weights_.length : Int) ≤ v) :
    g.get_weight v = .error .outOfRange := by
  unfold AbsGrid.get_weight
  rw [dif_neg]
  intro ⟨h1, h2⟩
  rcases hv with h | h
  · omega
  · omega

theorem update_weight_ok (g : AbsGrid) (node : Nat) (w : Rat)
    (hn : node < g.weights_.length) (hw : 0 ≤ w ∨ w = -1) :
    g.update_weight node w =
      (none, { g with weights_ := g.weights_.set node w }) := by
  have hcond : ¬ (w < 0 ∧ w ≠ -1) := by
    rcases hw with h | h
    · intro hc; exact absurd h (not_le.2 hc.1)
    · intro hc; exact hc.2 h
  have hrange : (0 : Int) ≤ (node : Int) ∧
      ((node : Int)).toNat < g.weights_.length :=
    ⟨Int.natCast_nonneg node, by simpa using hn⟩
  unfold AbsGrid.update_weight
  rw [if_neg hcond, if_pos hrange]
  simp [Int.toNat_natCast]

theorem update_weight_bad (g : AbsGrid) (node : Int) (w : Rat)
    (hw : ¬ (0 ≤ w ∨ w = -1)) :
    g.update_weight node w = (some .invalidArgument, g) := by
  have hcond : w < 0 ∧ w ≠ -1 := by
    push_neg at hw
    exact ⟨hw.1, hw.2⟩
  unfold AbsGrid.update_weight
  rw [if_pos hcond]

theorem get_weight_set (g : AbsGrid) (node : Nat) (w : Rat)
    (hn : node < g.weights_.length) :
    ({ g with weights_ := g.weights_.set node w } : AbsGrid).get_weight
      node = .ok w := by
  have hn' : node < (g.weights_.set node w).length := by
    rw [List.length_set]; exact hn
  rw [get_weight_eq _ node hn']
  congr 1
  rw [List.get_eq_getElem]
  exact List.getElem_set_self _

theorem has_obstacle_of_get (g : AbsGrid) (v : Int) (w : Rat)
    (h : g.get_weight v = .ok w) : g.has_obstacle v = .ok (w == -1) := by
  unfold AbsGrid.has_obstacle
  rw [h]
  rfl

/-- A concrete grid state with weights `[1, 5, -1]` and the default
pause-cost settings, for evaluating theorems. -/
def exGrid0 : AbsGrid :=
  { weights_ := [1, 5, -1] }

/-- The same weights with `pause_action_cost_type_ = 1`. -/
def exGridT1 : AbsGrid :=
  { weights_ := [1, 5, -1], pause_action_cost_type_ := 1 }

/-- A default-initialised `AbsGraph` state. -/
def exGraph0 : AbsGraphState := {}

/-- A concrete 2-by-1 grid, all cells passable. -/
def exGrid2 : Grid :=
  { width := 2, height := 1, weights_ := [1, 1] }

/-- A concrete two-vertex graph with an edge in each direction. -/
def exSearchGraph : SearchGraph where
  n := 2
  neighbors v := if v = 0 then [(1, 1)] else [(0, 1)]

/-- Claim C1: for every grid and every in-range vertex `v`, when
`pause_action_cost_type` is 0, `get_pause_action_cost(v)` returns the
configured fixed pause cost `pause_action_cost_`; when it is 1, it returns
the weight of cell `v`, except that a negative weight (an obstacle,
`w = -1`) yields 0. -/
theorem C1_pause_action_cost_at (g : AbsGrid) (v : Nat) (hv : v < g.size) :
    (g.pause_action_cost_type_ = 0 →
      g.get_pause_action_cost_at v = g.pause_action_cost_) ∧
    (g.pause_action_cost_type_ = 1 →
      ∀ w, g.get_weight v = .ok w →
        g.get_pause_action_cost_at v = if w < 0 then 0 else w) := by
  constructor
  · intro h0
    unfold AbsGrid.get_pause_action_cost_at
    rw [if_pos h0]
  · intro h1 w hw
    have hne : ¬ g.pause_action_cost_type_ = 0 := by rw [h1]; decide
    rw [get_weight_eq g v hv] at hw
    obtain rfl := Except.ok.inj hw
    unfold AbsGrid.get_pause_action_cost_at
    rw [if_neg hne]
    have hget : g.weights_.getD ((v : Int)).toNat 0 =
        g.weights_.get ⟨v, hv⟩ := by
      rw [Int.toNat_natCast, List.get_eq_getElem]
      exact List.getD_eq_getElem g.weights_ 0 hv
    rw [hget]

theorem C1_witness : exGridT1.get_pause_action_cost_at 2 = 0 := by
  have h := (C1_pause_action_cost_at exGridT1 2 (by decide)).2 rfl (-1)
    (get_weight_eq exGridT1 2 (by decide))
  exact h.trans (by norm_num)

/-- Claim C3 as stated is false at a concrete input: querying the
three-cell grid at the out-of-range id 3, `get_weight` raises the domain
error of the out-of-range kind (`std::out_of_range`, from
`std::vector::at`), which is not the invalid-argument kind. -/
theorem C3_counterexample :
    exGrid0.get_weight 3 = .error .outOfRange ∧
    (Except.error CppException.outOfRange : Except CppException Rat) ≠
      .error .invalidArgument := by
  refine ⟨get_weight_out exGrid0 3 (Or.inr (by decide)), ?_⟩
  intro h
  exact CppException.noConfusion (Except.error.inj h)

/-- Claim C3 amended: for every grid and every vertex id outside
`0..size()-1`, querying the grid with `get_weight` raises a domain error
of the out-of-range kind (`std::out_of_range`, raised by the
bounds-checked `std::vector::at`). -/
theorem C3_out_of_range (g : AbsGrid) (v : Int)
    (hv : v < 0 ∨ (g.size : Int) ≤ v) :
    g.get_weight v = .error .outOfRange := by
  apply get_weight_out
  have hsz : g.size = g.weights_.length := rfl
  rcases hv with h | h
  · exact Or.inl h
  · rw [hsz] at h
    exact Or.inr h

theorem C3_witness : exGrid0.get_weight (-2) = .error .outOfRange :=
  C3_out_of_range exGrid0 (-2) (Or.inl (by decide))

/-- Claim C4: for every graph and real `c`, `set_pause_action_cost(c)`
raises `std::invalid_argument` exactly when `c < 0`, leaves the stored
pause-action cost unchanged on the error branch, and for `c ≥ 0` stores
`c`, which `get_pause_action_cost()` then returns. -/
theorem C4_set_pause_action_cost (g : AbsGraphState) (c : Rat) :
    ((g.set_pause_action_cost c).1 = some .invalidArgument ↔ c < 0) ∧
    (c < 0 → (g.set_pause_action_cost c).2 = g) ∧
    (0 ≤ c → (g.set_pause_action_cost c).1 = none ∧
      (g.set_pause_action_cost c).2.get_pause_action_cost = c) := by
  unfold AbsGraphState.set_pause_action_cost
    AbsGraphState.get_pause_action_cost
  by_cases h : c < 0
  · rw [if_pos h]
    exact ⟨iff_of_true rfl h, fun _ => rfl,
      fun h0 => absurd h (not_lt.2 h0)⟩
  · rw [if_neg h]
    exact ⟨iff_of_false (by simp) h, fun hc => absurd hc h,
      fun _ => ⟨rfl, rfl⟩⟩

theorem C4_witness :
    (exGraph0.set_pause_action_cost 2).1 = none ∧
    (exGraph0.set_pause_action_cost 2).2.get_pause_action_cost = 2 :=
  (C4_set_pause_action_cost exGraph0 2).2.2 (by norm_num)

/-- Claim C5: for every grid and integer `t`, `set_pause_action_cost_type(t)`
raises `std::invalid_argument` exactly when `t` is neither 0 nor 1; for
`t` in `{0, 1}` the value is stored and returned by
`get_pause_action_cost_type()`, and the stored type is unchanged on the
error branch. -/
theorem C5_set_pause_action_cost_type (g : AbsGrid) (t : Int) :
    ((g.set_pause_action_cost_type t).1 = some .invalidArgument ↔
      (t ≠ 0 ∧ t ≠ 1)) ∧
    ((t ≠ 0 ∧ t ≠ 1) → (g.set_pause_action_cost_type t).2 = g) ∧
    ((t = 0 ∨ t = 1) → (g.set_pause_action_cost_type t).1 = none ∧
      (g.set_pause_action_cost_type t).2.get_pause_action_cost_type = t) := by
  unfold AbsGrid.set_pause_action_cost_type
    AbsGrid.get_pause_action_cost_type
  by_cases h : t < 0 ∨ t > 1
  · rw [if_pos h]
    refine ⟨iff_of_true rfl (by omega), fun _ => rfl, fun hc => ?_⟩
    exfalso; omega
  · rw [if_neg h]
    refine ⟨iff_of_false (by simp) (by omega), fun hc => ?_,
      fun _ => ⟨rfl, rfl⟩⟩
    exfalso; omega

theorem C5_witness :
    (exGrid0.set_pause_action_cost_type 5).1 = some .invalidArgument :=
  (C5_set_pause_action_cost_type exGrid0 5).1.2 (by decide)

/-- Claim C6: for every grid and in-range cell `v`, `has_obstacle(v)`
returns true exactly when the weight stored for `v` is the sentinel `-1`;
a cell of weight `w ≥ 0` is passable (`has_obstacle` false) with entry
cost `w`, the value `get_weight` returns. -/
theorem C6_has_obstacle (g : AbsGrid) (v : Nat) (_hv : v < g.size) :
    ∀ w, g.get_weight v = .ok w →
      (g.has_obstacle v = .ok true ↔ w = -1) ∧
      (0 ≤ w → g.has_obstacle v = .ok false ∧ g.get_weight v = .ok w) := by
  intro w hw
  have hmap : g.has_obstacle v = .ok (w == -1) := by
    unfold AbsGrid.has_obstacle
    rw [hw]
    rfl
  constructor
  · rw [hmap]
    constructor
    · intro h
      exact beq_iff_eq.1 (Except.ok.inj h)
    · intro h
      rw [beq_iff_eq.2 h]
  · intro hw0
    have hne : w ≠ -1 := by
      intro he
      rw [he] at hw0
      norm_num at hw0
    rw [hmap, beq_eq_false_iff_ne.2 hne]
    exact ⟨rfl, hw⟩

theorem C6_witness :
    exGrid0.has_obstacle 1 = .ok false ∧ exGrid0.get_weight 1 = .ok 5 :=
  (C6_has_obstacle exGrid0 1 (by decide) 5
    (get_weight_eq exGrid0 1 (by decide))).2 (by norm_num)

/-- Claim C2: for every well-formed graph, each pathfinder bound to it
(BFS, Dijkstra, A*), and every pair of in-range vertices, `find_path`
returns an empty sequence exactly when no path from start to goal exists;
`start = goal` returns the singleton `[start]`; and every nonempty result
begins with `start` and ends with `goal`. -/
theorem C2_find_path_contract (G : SearchGraph) (hG : G.WellFormed)
    (start goal : Nat) (hs : start < G.n) (_hg : goal < G.n) :
    FindPathContract G (BFS.find_path G) start goal ∧
    FindPathContract G (Dijkstra.find_path G) start goal ∧
    FindPathContract G (AStar.find_path G) start goal :=
  ⟨findPathWith_contract G hG _ start goal hs,
   findPathWith_contract G hG _ start goal hs,
   findPathWith_contract G hG _ start goal hs⟩

theorem C2_witness :
    FindPathContract exSearchGraph (BFS.find_path exSearchGraph) 0 1 ∧
    FindPathContract exSearchGraph (Dijkstra.find_path exSearchGraph) 0 1 ∧
    FindPathContract exSearchGraph (AStar.find_path exSearchGraph) 0 1 :=
  C2_find_path_contract exSearchGraph
    (by
      show ∀ v, v < 2 → ∀ p ∈ exSearchGraph.neighbors v, p.1 < 2
      decide)
    0 1 (by decide) (by decide)

/-- Claim C7: `update_weight(node, w)` raises a domain error unless the
weight is valid (`w ≥ 0` or `w = -1`) and stores `w` on success, and
`set_weights(vec)` raises a domain error unless `vec` has length `size()`
and replaces the weight vector on success. -/
theorem C7_update_and_set_weights (g : AbsGrid) (node : Nat) (w : Rat)
    (vec : List Rat) (hn : node < g.size) :
    (¬ (0 ≤ w ∨ w = -1) →
      (g.update_weight node w).1 = some .invalidArgument ∧
      (g.update_weight node w).2 = g) ∧
    ((0 ≤ w ∨ w = -1) → (g.update_weight node w).1 = none ∧
      (g.update_weight node w).2.get_weight node = .ok w) ∧
    (vec.length ≠ g.size → (g.set_weights vec).1 = some .invalidArgument ∧
      (g.set_weights vec).2 = g) ∧
    (vec.length = g.size → (g.set_weights vec).1 = none ∧
      (g.set_weights vec).2.weights_ = vec) := by
  refine ⟨?_, ?_, ?_, ?_⟩
  · intro hbad
    rw [update_weight_bad g node w hbad]
    exact ⟨rfl, rfl⟩
  · intro hgood
    rw [update_weight_ok g node w hn hgood]
    exact ⟨rfl, get_weight_set g node w hn⟩
  · intro hne
    have hne' : vec.length ≠ g.weights_.length := hne
    unfold AbsGrid.set_weights
    rw [if_neg hne']
    exact ⟨rfl, rfl⟩
  · intro heq
    have heq' : vec.length = g.weights_.length := heq
    unfold AbsGrid.set_weights
    rw [if_pos heq']
    exact ⟨rfl, rfl⟩

theorem C7_witness :
    (exGrid0.update_weight 0 7).1 = none ∧
    (exGrid0.update_weight 0 7).2.get_weight 0 = .ok 7 :=
  (C7_update_and_set_weights exGrid0 0 7 [] (by decide)).2.1
    (Or.inl (by norm_num))

/-- Claim C8: every grid is an undirected graph with coordinates:
`is_directed_graph()` returns false, `has_coordinates()` returns true,
and for every in-range vertex the reversed neighbor enumeration equals
the forward one. -/
theorem C8_undirected_with_coordinates (g : Grid) (v : Nat)
    (_hv : v < g.toAbsGrid.size) :
    g.toAbsGrid.is_directed_graph = false ∧
    g.toAbsGrid.has_coordinates = true ∧
    g.get_neighbors v true = g.get_neighbors v false :=
  ⟨rfl, rfl, rfl⟩

theorem C8_witness :
    exGrid2.toAbsGrid.is_directed_graph = false ∧
    exGrid2.toAbsGrid.has_coordinates = true ∧
    exGrid2.get_neighbors 0 true = exGrid2.get_neighbors 0 false :=
  C8_undirected_with_coordinates exGrid2 0 (by decide)

/-- Claim C9: for every grid and in-range cell `v`, `remove_obstacle(v)`
sets the weight of `v` to the constant 1 — regardless of the weight the
cell had before — and `clear_weights()` sets every cell's weight to 1, so
afterwards the affected cells are passable with `get_weight` equal to 1. -/
theorem C9_remove_obstacle_and_clear (g : AbsGrid) (v : Nat)
    (hv : v < g.size) :
    ((g.remove_obstacle v).1 = none ∧
     (g.remove_obstacle v).2.get_weight v = .ok 1 ∧
     (g.remove_obstacle v).2.has_obstacle v = .ok false) ∧
    (∀ u : Nat, u < g.size →
      g.clear_weights.get_weight u = .ok 1 ∧
      g.clear_weights.has_obstacle u = .ok false) := by
  have hrm : g.remove_obstacle v =
      (none, { g with weights_ := g.weights_.set v 1 }) :=
    update_weight_ok g v 1 hv (Or.inl (by norm_num))
  constructor
  · rw [hrm]
    have hget : ({ g with weights_ := g.weights_.set v 1 } :
        AbsGrid).get_weight v = .ok 1 := get_weight_set g v 1 hv
    refine ⟨rfl, hget, ?_⟩
    rw [has_obstacle_of_get _ _ 1 hget]
    have hb : ((1 : Rat) == -1) = false := by decide
    rw [hb]
  · intro u hu
    have hu' : u < g.clear_weights.weights_.length := by
      show u < (g.weights_.map (fun _ => (1 : Rat))).length
      rw [List.length_map]
      exact hu
    have hget : g.clear_weights.get_weight u = .ok 1 := by
      rw [get_weight_eq g.clear_weights u hu']
      congr 1
      show (g.weights_.map (fun _ => (1 : Rat))).get ⟨u, hu'⟩ = 1
      rw [List.get_eq_getElem]
      exact List.getElem_map _
    refine ⟨hget, ?_⟩
    rw [has_obstacle_of_get _ _ 1 hget]
    have hb : ((1 : Rat) == -1) = false := by decide
    rw [hb]

theorem C9_witness :
    ((exGrid0.remove_obstacle 2).1 = none ∧
     (exGrid0.remove_obstacle 2).2.get_weight 2 = .ok 1 ∧
     (exGrid0.remove_obstacle 2).2.has_obstacle 2 = .ok false) ∧
    (∀ u : Nat, u < exGrid0.size →
      exGrid0.clear_weights.get_weight u = .ok 1 ∧
      exGrid0.clear_weights.has_obstacle u = .ok false) :=
  C9_remove_obstacle_and_clear exGrid0 2 (by decide)

/-- Claim C10: for every grid and in-range cell `v`, after
`add_obstacle(v)` the cell reads as an obstacle (`has_obstacle` true,
`get_weight = -1`), and `add_obstacle` is idempotent: the second call
leaves the grid unchanged. -/
theorem C10_add_obstacle (g : AbsGrid) (v : Nat) (hv : v < g.size) :
    (g.add_obstacle v).1 = none ∧
    (g.add_obstacle v).2.has_obstacle v = .ok true ∧
    (g.add_obstacle v).2.get_weight v = .ok (-1) ∧
    ((g.add_obstacle v).2.add_obstacle v).2 = (g.add_obstacle v).2 := by
  have hadd : g.add_obstacle v =
      (none, { g with weights_ := g.weights_.set v (-1) }) :=
    update_weight_ok g v (-1) hv (Or.inr rfl)
  have hget : ({ g with weights_ := g.weights_.set v (-1) } :
      AbsGrid).get_weight v = .ok (-1) := get_weight_set g v (-1) hv
  rw [hadd]
  refine ⟨rfl, ?_, hget, ?_⟩
  · rw [has_obstacle_of_get _ _ (-1) hget]
    have hb : ((-1 : Rat) == -1) = true := by decide
    rw [hb]
  · have hv' : v < (g.weights_.set v (-1)).length := by
      rw [List.length_set]; exact hv
    have h2 : ({ g with weights_ := g.weights_.set v (-1) } :
        AbsGrid).add_obstacle v = (none,
          { g with weights_ := (g.weights_.set v (-1)).set v (-1) }) :=
      update_weight_ok _ v (-1) hv' (Or.inr rfl)
    rw [h2]
    show ({ g with weights_ := (g.weights_.set v (-1)).set v (-1) } :
      AbsGrid) = { g with weights_ := g.weights_.set v (-1) }
    rw [List.set_set]

theorem C10_witness :
    (exGrid0.add_obstacle 0).1 = none ∧
    (exGrid0.add_obstacle 0).2.has_obstacle 0 = .ok true ∧
    (exGrid0.add_obstacle 0).2.get_weight 0 = .ok (-1) ∧
    ((exGrid0.add_obstacle 0).2.add_obstacle 0).2 =
      (exGrid0.add_obstacle 0).2 :=
  C10_add_obstacle exGrid0 0 (by decide)
